import Mathlib

/-!
Verification of the optical-flow job coordination module (optflow.py) of
fast-artistic-videos-pytorch.

The module is embedded shallowly:

* the shared directory is a small filesystem model (`FS`): an association
  list of paths to file contents plus a set of paths on which any create or
  write fails with a permission error;
* file names are an inductive type whose constructors correspond to the
  name templates used by the source (`FRAME_NAME % idx`, the placeholder
  stem plus `.plc`, `forward_i_j.flo`, `backward_j_i.flo`,
  `reliable_j_i.pgm`);
* floating point values are carried as their IEEE-754 single-precision bit
  patterns (natural numbers), and `write_flow` serializes them to bytes
  exactly as the sequence of `tofile` calls in the source does;
* the external tools (DeepMatching, DeepFlow2, the consistency check) and
  the in-process Farneback estimator are opaque: an `Oracle` records what
  flow they compute, which output files they produce and their exit
  statuses.  Mirroring the source, exit statuses are never inspected by
  `run_job` (the source calls `subprocess.run` without `check=True`);
* the coordinating loop of `optflow` is modelled twice: a functional model
  (`optflowLoop`) for the sequence of claim attempts of the single
  coordinator thread, and a small-step relation (`PoolStep`) in which
  thread completions interleave nondeterministically with the coordinator,
  used for the concurrency-bound and join claims.
-/

set_option autoImplicit false
set_option linter.unusedVariables false

namespace Optflow

/-- File names inside the shared directory.  Each constructor is one of the
name templates of the source: `frame i` is `FRAME_NAME % i`, `plc i` is
`os.path.splitext(FRAME_NAME)[0] % i + '.plc'`, `forwardFlo i j` is
`'forward_i_j.flo'`, `backwardFlo i j` is `'backward_i_j.flo'`,
`reliablePgm i j` is `'reliable_i_j.pgm'`.  Modelled from the spec: the
concrete template `FRAME_NAME` comes from the `sconst` module, which is not
among the repository files; the spec requires only that frame and
placeholder paths are deterministic functions of the index, which the
constructors provide. -/
inductive FName where
  | frame (i : Nat)
  | plc (i : Nat)
  | forwardFlo (i j : Nat)
  | backwardFlo (i j : Nat)
  | reliablePgm (i j : Nat)
  | extra (s : String)
deriving DecidableEq, Repr

/-- Full path of a file: the shared directory `dst` plus a file name, as in
`str(dst / name)`. -/
structure Path where
  dir : String
  name : FName
deriving DecidableEq, Repr

/-- Raster image, as decoded by `cv2.imread`.  Pixel data is abstract. -/
structure Img where
  height : Nat
  width : Nat
  pix : List Nat
deriving DecidableEq, Repr

/-- Contents of a file: diagnostic text (the placeholder), raw bytes
(`.flo` and `.pgm` outputs), or a decodable image (the `.ppm` frames). -/
inductive FileContent where
  | text (s : String)
  | bytes (bs : List Nat)
  | image (im : Img)
deriving DecidableEq, Repr

/-- The shared directory.  `files` is an association list (a later entry
for the same path is shadowed by an earlier one; `write` conses).  `denied`
is the set of paths on which creating or writing raises a permission
error, modelling filesystem failures other than "already exists". -/
structure FS where
  files : List (Path × FileContent)
  denied : List Path
deriving DecidableEq, Repr

/-- Look up the current content of a path in an association list. -/
def lookupFile : List (Path × FileContent) → Path → Option FileContent
  | [], _ => none
  | (q, c) :: rest, p => if p = q then some c else lookupFile rest p

/-- Remove every entry of a path from an association list (`os.remove`). -/
def eraseAll : List (Path × FileContent) → Path → List (Path × FileContent)
  | [], _ => []
  | (q, c) :: rest, p => if q = p then eraseAll rest p else (q, c) :: eraseAll rest p

/-- Content of the file at `p`, or `none` when no such file exists. -/
def FS.read (fs : FS) (p : Path) : Option FileContent :=
  lookupFile fs.files p

/-- Create or fully overwrite the file at `p` with content `c`. -/
def FS.write (fs : FS) (p : Path) (c : FileContent) : FS :=
  ⟨(p, c) :: fs.files, fs.denied⟩

/-- Delete the file at `p` (`os.remove`). -/
def FS.removeFile (fs : FS) (p : Path) : FS :=
  ⟨eraseAll fs.files p, fs.denied⟩

/-- Failures of the exclusive create `open(path, 'x')`: the path already
exists, or some other I/O failure (permission denied). -/
inductive CreateErr where
  | fileExists
  | ioError
deriving DecidableEq, Repr

/-- Unexpected I/O failure, distinct from the "already exists" outcome. -/
inductive IOErr where
  | ioError
deriving DecidableEq, Repr

/-- Exclusive creation, `open(path, 'x')`: fails with `fileExists` when the
path already exists (the atomic-create race loser), with `ioError` when the
filesystem denies the operation, and otherwise creates the file with
content `c`. -/
def FS.createNew (fs : FS) (p : Path) (c : FileContent) : Except CreateErr FS :=
  if (fs.read p).isSome then .error .fileExists
  else if p ∈ fs.denied then .error .ioError
  else .ok (fs.write p c)

/-- The module's `claim_job(idx, frames, dst)`.  `node` is
`platform.node()`, the claimant's machine name.  Tries to create the
placeholder exclusively; on success writes the diagnostic text and returns
the paths of frame `idx` and frame `idx + 1`; on `FileExistsError` returns
no job (`(None, None)`); any other I/O failure propagates.  The `frames`
argument is accepted, and ignored, exactly as in the source. -/
def claim_job (idx : Nat) (frames : List String) (dst : String) (node : String)
    (fs : FS) : Except IOErr (Option (Path × Path) × FS) :=
  let placeholder : Path := ⟨dst, .plc idx⟩
  match fs.createNew placeholder (.text ("PLACEHOLDER CREATED BY " ++ node)) with
  | .ok fs1 =>
      let start_name : Path := ⟨dst, .frame idx⟩
      let end_name : Path := ⟨dst, .frame (idx + 1)⟩
      .ok (some (start_name, end_name), fs1)
  | .error .fileExists => .ok (none, fs)
  | .error .ioError => .error .ioError

/-- Little-endian bytes of a 32-bit value, as `numpy.tofile` emits them on
a little-endian host. -/
def u32le (n : Nat) : List Nat :=
  [n % 256, n / 256 % 256, n / 65536 % 256, n / 16777216 % 256]

/-- Bit pattern of the IEEE-754 single-precision value `202021.25`, the
`.flo` magic number written by `np.array(202021.25, dtype=np.float32)`:
sign 0, biased exponent 144, mantissa `0x454950` (the bytes spell `PIEH`). -/
def FLO_MAGIC_BITS : Nat := 0x48454950

/-- Rational value denoted by the bit pattern of a normalized IEEE-754
single-precision float. -/
def f32toRat (b : Nat) : ℚ :=
  let s : Nat := b / 2 ^ 31 % 2
  let e : Nat := b / 2 ^ 23 % 2 ^ 8
  let m : Nat := b % 2 ^ 23
  let mag : ℚ := (1 + (m : ℚ) / 2 ^ 23) *
    (if 127 ≤ e then 2 ^ (e - 127) else 1 / 2 ^ (127 - e))
  if s = 0 then mag else -mag

/-- A flow field as a numpy array of shape `(height, width, 2)`: a list of
rows, each row a list of per-pixel `(dx, dy)` pairs of float32 bit
patterns. -/
abbrev Flow := List (List (Nat × Nat))

/-- Width of a flow field, `flow.shape[1]`. -/
def flowWidth : Flow → Nat
  | [] => 0
  | row :: _ => row.length

/-- Bytes of one row of flow data: each pixel contributes its `dx` then its
`dy` as four little-endian bytes each. -/
def rowBytes : List (Nat × Nat) → List Nat
  | [] => []
  | v :: rest => u32le v.1 ++ u32le v.2 ++ rowBytes rest

/-- Bytes of the data section, rows in order (row-major). -/
def floData : Flow → List Nat
  | [] => []
  | row :: rest => rowBytes row ++ floData rest

/-- Full byte contents of a `.flo` file as the source writes it: the magic
float, the width as uint32, the height as uint32, then the data. -/
def floBytes (flow : Flow) : List Nat :=
  u32le FLO_MAGIC_BITS ++ u32le (flowWidth flow) ++ u32le flow.length ++ floData flow

/-- The module's `write_flow(fname, flow)`: opens `fname` in `'wb'` mode
(fully replacing any previous content, or failing when the filesystem
denies the write) and writes the magic number, width, height and data in
that order. -/
def write_flow (fname : Path) (flow : Flow) (fs : FS) : Except IOErr FS :=
  if fname ∈ fs.denied then .error .ioError
  else .ok (fs.write fname (.bytes (floBytes flow)))

/-- Behavior of the opaque computations run by the pipeline: what flow the
in-process Farneback estimator returns, which output files the external
DeepMatching/DeepFlow2 chain and the external consistency check produce,
and the exit statuses of those external processes.  The source never
inspects the exit statuses (`subprocess.run` is called without
`check=True`), which the theorems below make visible. -/
structure Oracle where
  cvtGray : Img → Img
  calcFlow : Img → Img → Flow
  deepflowForward : Option FileContent
  deepflowBackward : Option FileContent
  deepflowForwardExit : Int
  deepflowBackwardExit : Int
  consistencyOut : Option FileContent
  consistencyExit : Int

/-- Per-job failures: `cv2.cvtColor` raising on the `None` returned by
`cv2.imread` for a missing or undecodable frame, an I/O failure inside
`write_flow`, and `os.remove` raising `FileNotFoundError`. -/
inductive JobErr where
  | missingFrame
  | codecIOFailure
  | fileNotFound
deriving DecidableEq, Repr

/-- Result of running a job body: the error that terminated the thread, if
any, and the state of the shared directory at that point. -/
structure RunOutcome where
  err : Option JobErr
  fs : FS
deriving DecidableEq, Repr

/-- The decoded image at `p`, or `none` when the file is absent or not a
decodable image (`cv2.imread` returns `None` in both cases). -/
def imread (fs : FS) (p : Path) : Option Img :=
  match fs.read p with
  | some (.image im) => some im
  | _ => none

/-- The module's `farneback`: reads and grayscales both frames (raising on
a missing frame), computes forward and backward flow in process, and
persists both with `write_flow`. -/
def farneback (o : Oracle) (start_name end_name forward_name backward_name : Path)
    (fs : FS) : RunOutcome :=
  match imread fs start_name with
  | none => ⟨some .missingFrame, fs⟩
  | some s0 =>
    match imread fs end_name with
    | none => ⟨some .missingFrame, fs⟩
    | some e0 =>
      let s := o.cvtGray s0
      let e := o.cvtGray e0
      let fwd := o.calcFlow s e
      let bwd := o.calcFlow e s
      match write_flow forward_name fwd fs with
      | .error _ => ⟨some .codecIOFailure, fs⟩
      | .ok fs1 =>
        match write_flow backward_name bwd fs1 with
        | .error _ => ⟨some .codecIOFailure, fs1⟩
        | .ok fs2 => ⟨none, fs2⟩

/-- The module's `deepflow`: pipes DeepMatching into DeepFlow2 once per
direction.  The external processes write the `.flo` files themselves (the
oracle says whether they did); their exit statuses are never checked, so
this step cannot fail the job. -/
def deepflow (o : Oracle) (start_name end_name forward_name backward_name : Path)
    (fs : FS) : RunOutcome :=
  let fs1 := match o.deepflowForward with
    | some c => fs.write forward_name c
    | none => fs
  let fs2 := match o.deepflowBackward with
    | some c => fs1.write backward_name c
    | none => fs1
  ⟨none, fs2⟩

/-- The module's `run_job(idx, start_name, end_name, dst, fast)`: derives
the forward, backward and reliability file names from `idx`, runs the
selected backend, runs the external consistency check (exit status
discarded; the oracle says whether it wrote the reliability map), and
finally deletes the forward flow file, raising `FileNotFoundError` when
that file does not exist. -/
def run_job (o : Oracle) (idx : Nat) (start_name end_name : Path) (dst : String)
    (fast : Bool) (fs : FS) : RunOutcome :=
  let forward_name : Path := ⟨dst, .forwardFlo idx (idx + 1)⟩
  let backward_name : Path := ⟨dst, .backwardFlo (idx + 1) idx⟩
  let reliable_name : Path := ⟨dst, .reliablePgm (idx + 1) idx⟩
  let step1 :=
    if fast then farneback o start_name end_name forward_name backward_name fs
    else deepflow o start_name end_name forward_name backward_name fs
  match step1.err with
  | some e => ⟨some e, step1.fs⟩
  | none =>
    let fs3 := match o.consistencyOut with
      | some c => step1.fs.write reliable_name c
      | none => step1.fs
    if (fs3.read forward_name).isSome then ⟨none, fs3.removeFile forward_name⟩
    else ⟨some .fileNotFound, fs3⟩

/-- Arguments of one spawned `run_job` thread, as the coordinator passes
them: `(idx + 1, start_name, end_name, dst, fast)`. -/
structure Job where
  idx : Nat
  start_name : Path
  end_name : Path
  dst : String
  fast : Bool
deriving DecidableEq, Repr

/-- Claim-and-dispatch loop of `optflow`, seen from the coordinator thread
alone: starting at loop index `idx` with `count` iterations remaining, it
attempts `claim_job (idx + 1)` at each iteration, records the attempted
index, and records a spawned job on each successful claim.  Thread
execution and the capacity wait are not part of this model (they do not
change which claims the coordinator attempts); `PoolStep` below models
them.  An I/O failure inside a claim propagates out of the loop. -/
def optflowLoop (frames : List String) (dst node : String) (fast : Bool) :
    Nat → Nat → FS → Except IOErr (FS × List Nat × List Job)
  | _, 0, fs => .ok (fs, [], [])
  | idx, count + 1, fs =>
    match claim_job (idx + 1) frames dst node fs with
    | .error e => .error e
    | .ok (none, fs1) =>
      match optflowLoop frames dst node fast (idx + 1) count fs1 with
      | .error e => .error e
      | .ok (fs2, attempts, jobs) => .ok (fs2, (idx + 1) :: attempts, jobs)
    | .ok (some (s, e), fs1) =>
      match optflowLoop frames dst node fast (idx + 1) count fs1 with
      | .error er => .error er
      | .ok (fs2, attempts, jobs) =>
        .ok (fs2, (idx + 1) :: attempts, ⟨idx + 1, s, e, dst, fast⟩ :: jobs)

/-- The module's `optflow(start, frames, dst, fast)`, restricted to the
coordinator's claim trace: the loop runs over
`range(start, start + len(frames) - 1)`, which has
`(start + len(frames) - 1) - start` iterations, and returns the final
directory state, the list of claim-attempt indices, and the spawned jobs. -/
def optflow (start : Nat) (frames : List String) (dst : String) (fast : Bool)
    (node : String) (fs : FS) : Except IOErr (FS × List Nat × List Job) :=
  optflowLoop frames dst node fast start (start + frames.length - 1 - start) fs

/-- Number of live threads in the `running` list: `thread.isAlive()` is
`true` while the spawned `run_job` has not finished. -/
def countAlive (l : List Bool) : Nat := l.count true

/-- Phase of the coordinator in `optflow`: inside the claim loop, joining
the remaining threads, returned, or terminated by a propagating claim
exception. -/
inductive Phase where
  | looping
  | joining
  | finished
  | crashed
deriving DecidableEq, Repr

/-- Fixed data of one `optflow` run for the small-step model. -/
structure PoolEnv where
  maxJobs : Nat
  frames : List String
  dst : String
  node : String
  start : Nat

/-- Upper bound of the loop `range(start, start + len(frames) - 1)`. -/
def PoolEnv.endIdx (env : PoolEnv) : Nat := env.start + env.frames.length - 1

/-- Instantaneous state of an `optflow` run: coordinator phase, next loop
index, the `running` list (one liveness flag per spawned thread, a `false`
entry being a thread that has finished but has not yet been filtered out
of the list), the shared directory, and the trace of claim-attempt
indices. -/
structure PoolState where
  phase : Phase
  idx : Nat
  running : List Bool
  fs : FS
  claims : List Nat
deriving DecidableEq, Repr

/-- State of a worker process at the start of `optflow(start, frames, dst)`. -/
def initState (fs0 : FS) (start : Nat) : PoolState :=
  ⟨.looping, start, [], fs0, []⟩

/-- Small-step semantics of `optflow` with its spawned threads.
`poll` is one iteration of the capacity wait
(`running = [thread for thread in running if thread.isAlive()]` followed by
a sleep), enabled exactly when `len(running) >= MAX_OPTFLOW_JOBS`;
`claimWin`, `claimLose` and `claimFail` are one loop iteration — a call of
`claim_job (idx + 1)` — enabled only below the capacity bound, appending a
live thread on a successful claim; `threadDone` is a spawned `run_job`
finishing (successfully or not) at any moment, flipping only its own
liveness flag and changing the shared directory in an arbitrary way (an
over-approximation of the files a pipeline writes or removes); `startJoin`
is the loop exhausting its index range, and `finishJoin` is the final join
loop returning, which it can only do once every spawned thread is dead.
The maximum concurrent job count `MAX_OPTFLOW_JOBS` is modelled from the
spec as the arbitrary bound `env.maxJobs`, its defining module `sconst`
not being among the repository files. -/
inductive PoolStep (env : PoolEnv) : PoolState → PoolState → Prop
  | poll (s : PoolState) :
      s.phase = .looping → s.idx < env.endIdx → env.maxJobs ≤ s.running.length →
      PoolStep env s { s with running := s.running.filter (fun b => b) }
  | claimWin (s : PoolState) (names : Path × Path) (fs1 : FS) :
      s.phase = .looping → s.idx < env.endIdx → s.running.length < env.maxJobs →
      claim_job (s.idx + 1) env.frames env.dst env.node s.fs = .ok (some names, fs1) →
      PoolStep env s
        ⟨.looping, s.idx + 1, s.running ++ [true], fs1, s.claims ++ [s.idx + 1]⟩
  | claimLose (s : PoolState) (fs1 : FS) :
      s.phase = .looping → s.idx < env.endIdx → s.running.length < env.maxJobs →
      claim_job (s.idx + 1) env.frames env.dst env.node s.fs = .ok (none, fs1) →
      PoolStep env s
        ⟨.looping, s.idx + 1, s.running, fs1, s.claims ++ [s.idx + 1]⟩
  | claimFail (s : PoolState) (e : IOErr) :
      s.phase = .looping → s.idx < env.endIdx → s.running.length < env.maxJobs →
      claim_job (s.idx + 1) env.frames env.dst env.node s.fs = .error e →
      PoolStep env s
        ⟨.crashed, s.idx, s.running, s.fs, s.claims ++ [s.idx + 1]⟩
  | threadDone (s : PoolState) (k : Nat) (fs1 : FS) :
      s.running.get? k = some true →
      PoolStep env s { s with running := s.running.set k false, fs := fs1 }
  | startJoin (s : PoolState) :
      s.phase = .looping → env.endIdx ≤ s.idx →
      PoolStep env s { s with phase := .joining }
  | finishJoin (s : PoolState) :
      s.phase = .joining → countAlive s.running = 0 →
      PoolStep env s { s with phase := .finished }

/-- Reachability in the small-step semantics. -/
def PoolReach (env : PoolEnv) (s t : PoolState) : Prop :=
  Relation.ReflTransGen (PoolStep env) s t

theorem lookupFile_cons_self (p : Path) (c : FileContent)
    (l : List (Path × FileContent)) : lookupFile ((p, c) :: l) p = some c := by
  simp [lookupFile]

theorem lookupFile_cons_ne (p q : Path) (c : FileContent)
    (l : List (Path × FileContent)) (h : q ≠ p) :
    lookupFile ((p, c) :: l) q = lookupFile l q := by
  simp [lookupFile, h]

theorem read_write_self (fs : FS) (p : Path) (c : FileContent) :
    (fs.write p c).read p = some c := by
  simp [FS.read, FS.write, lookupFile]

theorem read_write_ne (fs : FS) (p q : Path) (c : FileContent) (h : q ≠ p) :
    (fs.write p c).read q = fs.read q := by
  simp [FS.read, FS.write, lookupFile, h]

theorem lookupFile_eraseAll_self (l : List (Path × FileContent)) (p : Path) :
    lookupFile (eraseAll l p) p = none := by
  induction l with
  | nil => simp [eraseAll, lookupFile]
  | cons hd tl ih =>
    obtain ⟨q, c⟩ := hd
    by_cases h : q = p
    · simpa [eraseAll, h] using ih
    · simpa [eraseAll, lookupFile, h, Ne.symm h] using ih

theorem lookupFile_eraseAll_ne (l : List (Path × FileContent)) (p q : Path)
    (h : q ≠ p) : lookupFile (eraseAll l p) q = lookupFile l q := by
  induction l with
  | nil => simp [eraseAll]
  | cons hd tl ih =>
    obtain ⟨r, c⟩ := hd
    by_cases hr : r = p
    · subst hr
      simpa [eraseAll, lookupFile, h] using ih
    · by_cases hq : q = r
      · subst hq
        simp [eraseAll, hr, lookupFile]
      · simpa [eraseAll, lookupFile, hr, hq] using ih

theorem read_removeFile_self (fs : FS) (p : Path) :
    (fs.removeFile p).read p = none :=
  lookupFile_eraseAll_self fs.files p

theorem read_removeFile_ne (fs : FS) (p q : Path) (h : q ≠ p) :
    (fs.removeFile p).read q = fs.read q :=
  lookupFile_eraseAll_ne fs.files p q h

theorem denied_write (fs : FS) (p : Path) (c : FileContent) :
    (fs.write p c).denied = fs.denied := rfl

/-- Outcome of `claim_job` when the placeholder for `idx` already exists:
the no-job result, with the directory untouched. -/
theorem claim_job_of_exists (idx : Nat) (frames : List String) (dst node : String)
    (fs : FS) (h : (fs.read ⟨dst, FName.plc idx⟩).isSome) :
    claim_job idx frames dst node fs = .ok (none, fs) := by
  simp [claim_job, FS.createNew, h]

/-- Outcome of `claim_job` when the placeholder for `idx` does not exist
and the filesystem permits its creation: the job is claimed, the
placeholder is written, and the two frame paths are returned. -/
theorem claim_job_of_absent (idx : Nat) (frames : List String) (dst node : String)
    (fs : FS) (h1 : fs.read ⟨dst, FName.plc idx⟩ = none)
    (h2 : (⟨dst, FName.plc idx⟩ : Path) ∉ fs.denied) :
    claim_job idx frames dst node fs =
      .ok (some (⟨dst, FName.frame idx⟩, ⟨dst, FName.frame (idx + 1)⟩),
        fs.write ⟨dst, FName.plc idx⟩
          (.text ("PLACEHOLDER CREATED BY " ++ node))) := by
  simp [claim_job, FS.createNew, h1, h2, FS.write]

/-- Outcome of `claim_job` when the filesystem denies creating the absent
placeholder: the error propagates. -/
theorem claim_job_of_denied (idx : Nat) (frames : List String) (dst node : String)
    (fs : FS) (h1 : fs.read ⟨dst, FName.plc idx⟩ = none)
    (h2 : (⟨dst, FName.plc idx⟩ : Path) ∈ fs.denied) :
    claim_job idx frames dst node fs = .error .ioError := by
  simp [claim_job, FS.createNew, h1, h2]

/-- Anatomy of a successful claim: it can only have happened with the
placeholder absent and creatable, and it leaves exactly the placeholder
written. -/
theorem claim_job_success_inv (idx : Nat) (frames : List String) (dst node : String)
    (fs fs1 : FS) (pr : Path × Path)
    (h : claim_job idx frames dst node fs = .ok (some pr, fs1)) :
    fs.read ⟨dst, FName.plc idx⟩ = none ∧
      (⟨dst, FName.plc idx⟩ : Path) ∉ fs.denied ∧
      pr = (⟨dst, FName.frame idx⟩, ⟨dst, FName.frame (idx + 1)⟩) ∧
      fs1 = fs.write ⟨dst, FName.plc idx⟩
        (.text ("PLACEHOLDER CREATED BY " ++ node)) := by
  by_cases h1 : (fs.read ⟨dst, FName.plc idx⟩).isSome
  · rw [claim_job_of_exists idx frames dst node fs h1] at h
    simp at h
  · have h1' : fs.read ⟨dst, FName.plc idx⟩ = none := by
      cases hr : fs.read ⟨dst, FName.plc idx⟩ with
      | none => rfl
      | some c => rw [hr] at h1; simp at h1
    by_cases h2 : (⟨dst, FName.plc idx⟩ : Path) ∈ fs.denied
    · rw [claim_job_of_denied idx frames dst node fs h1' h2] at h
      simp at h
    · rw [claim_job_of_absent idx frames dst node fs h1' h2] at h
      simp at h
      exact ⟨h1', h2, h.1.symm, h.2.symm⟩

/-- Claim C2: for every index whose placeholder file already exists,
`claim_job` returns the no-job result without raising and without touching
any file; a claim never succeeds twice for the same index (after a
successful claim, any further claim of that index returns no job); and a
filesystem failure other than "already exists" (permission denied on an
absent placeholder) propagates as an error, distinct from the no-job
result. -/
theorem claim_job_idempotent (idx : Nat) (f1 f2 : List String)
    (dst n1 n2 : String) (fs : FS) :
    ((fs.read ⟨dst, FName.plc idx⟩).isSome →
      claim_job idx f1 dst n1 fs = .ok (none, fs)) ∧
    (∀ pr fs1, claim_job idx f1 dst n1 fs = .ok (some pr, fs1) →
      claim_job idx f2 dst n2 fs1 = .ok (none, fs1)) ∧
    (fs.read ⟨dst, FName.plc idx⟩ = none →
      (⟨dst, FName.plc idx⟩ : Path) ∈ fs.denied →
      claim_job idx f1 dst n1 fs = .error .ioError) := by
  refine ⟨fun h => claim_job_of_exists idx f1 dst n1 fs h, ?_,
    fun h1 h2 => claim_job_of_denied idx f1 dst n1 fs h1 h2⟩
  intro pr fs1 h
  obtain ⟨-, -, -, hfs1⟩ := claim_job_success_inv idx f1 dst n1 fs fs1 pr h
  subst hfs1
  exact claim_job_of_exists idx f2 dst n2 _ (by rw [read_write_self]; rfl)

/-- Witness for C2 at a concrete state: a directory already holding the
placeholder for index 3 yields the no-job result and is left unchanged. -/
theorem claim_job_idempotent_witness :
    claim_job 3 ["f"] "d" "nodeA"
      ⟨[(⟨"d", FName.plc 3⟩, .text "old")], []⟩ =
      .ok (none, ⟨[(⟨"d", FName.plc 3⟩, .text "old")], []⟩) :=
  (claim_job_idempotent 3 ["f"] ["g"] "d" "nodeA" "nodeB"
    ⟨[(⟨"d", FName.plc 3⟩, .text "old")], []⟩).1 (by decide)

/-- Claim C9: the result and the filesystem effect of `claim_job` do not
depend on the `frames` argument at all — two calls with arbitrary distinct
`frames` values from the same state are literally the same computation. -/
theorem claim_job_ignores_frames (idx : Nat) (f1 f2 : List String)
    (dst node : String) (fs : FS) :
    claim_job idx f1 dst node fs = claim_job idx f2 dst node fs := rfl

/-- Any number of claim attempts for one index racing on one shared
directory.  The exclusive create inside `claim_job` is a single atomic
filesystem operation (the linearization point), so every interleaving of
the racing threads or processes is equivalent to running the attempts in
some sequence; the list gives that sequence through each claimant's node
name.  A claimant whose attempt raises changes nothing and claims
nothing. -/
def runClaims (idx : Nat) (frames : List String) (dst : String) :
    List String → FS → List (Except IOErr (Option (Path × Path))) × FS
  | [], fs => ([], fs)
  | node :: rest, fs =>
    match claim_job idx frames dst node fs with
    | .ok (r, fs1) =>
      let out := runClaims idx frames dst rest fs1
      (.ok r :: out.1, out.2)
    | .error e =>
      let out := runClaims idx frames dst rest fs
      (.error e :: out.1, out.2)

/-- Check that a claim attempt succeeded (returned frame paths). -/
def isClaimWin : Except IOErr (Option (Path × Path)) → Bool
  | .ok (some _) => true
  | _ => false

/-- Once the placeholder exists, every further attempt in the race returns
the no-job result and the directory no longer changes. -/
theorem runClaims_of_exists (idx : Nat) (frames : List String) (dst : String)
    (nodes : List String) (fs : FS)
    (h : (fs.read ⟨dst, FName.plc idx⟩).isSome) :
    runClaims idx frames dst nodes fs =
      (List.replicate nodes.length (Except.ok none), fs) := by
  induction nodes with
  | nil => rfl
  | cons node rest ih =>
    simp only [runClaims, claim_job_of_exists idx frames dst node fs h, ih,
      List.length_cons, List.replicate_succ]

theorem countP_claimWin_replicate (n : Nat) :
    (List.replicate n (Except.ok (none : Option (Path × Path)))).countP
      isClaimWin = 0 := by
  refine List.countP_eq_zero.mpr fun a ha => ?_
  rw [(List.mem_replicate.mp ha).2]
  simp [isClaimWin]

/-- Claim C1: among any number of racing claim attempts for one index on
one shared directory, at most one succeeds; when the index is initially
unclaimed and at least one attempt is made, exactly one succeeds; and
every attempt that does not succeed returns the no-job result.  The race
is decided solely by the atomic exclusive create of the placeholder at the
path derived from the index and the directory. -/
theorem claim_job_exclusive (idx : Nat) (frames : List String) (dst : String)
    (nodes : List String) (fs : FS)
    (hd : (⟨dst, FName.plc idx⟩ : Path) ∉ fs.denied) :
    (runClaims idx frames dst nodes fs).1.countP isClaimWin ≤ 1 ∧
    (fs.read ⟨dst, FName.plc idx⟩ = none → nodes ≠ [] →
      (runClaims idx frames dst nodes fs).1.countP isClaimWin = 1) ∧
    (∀ r ∈ (runClaims idx frames dst nodes fs).1, isClaimWin r = false →
      r = .ok none) := by
  cases nodes with
  | nil =>
    exact ⟨Nat.zero_le 1, fun _ h => absurd rfl h,
      fun r hr => absurd hr (by simp [runClaims])⟩
  | cons node rest =>
    cases hr : fs.read ⟨dst, FName.plc idx⟩ with
    | some c =>
      have h1 : (fs.read ⟨dst, FName.plc idx⟩).isSome := by rw [hr]; rfl
      simp only [runClaims, claim_job_of_exists idx frames dst node fs h1,
        runClaims_of_exists idx frames dst rest fs h1]
      refine ⟨?_, fun hnone _ => absurd hnone (by simp), ?_⟩
      · simp [List.countP_cons, isClaimWin, countP_claimWin_replicate]
      · intro r hmem _
        rcases List.mem_cons.mp hmem with h | h
        · exact h
        · exact (List.mem_replicate.mp h).2
    | none =>
      have hsome : ((fs.write ⟨dst, FName.plc idx⟩
          (.text ("PLACEHOLDER CREATED BY " ++ node))).read
            ⟨dst, FName.plc idx⟩).isSome := by
        rw [read_write_self]; rfl
      simp only [runClaims, claim_job_of_absent idx frames dst node fs hr hd,
        runClaims_of_exists idx frames dst rest _ hsome]
      refine ⟨?_, fun _ _ => ?_, ?_⟩
      · simp [List.countP_cons, isClaimWin, countP_claimWin_replicate]
      · simp [List.countP_cons, isClaimWin, countP_claimWin_replicate]
      · intro r hmem hwin
        rcases List.mem_cons.mp hmem with h | h
        · rw [h] at hwin; simp [isClaimWin] at hwin
        · exact (List.mem_replicate.mp h).2

/-- Witness for C1: three claimants racing for index 1 of an empty shared
directory — exactly one attempt succeeds. -/
theorem claim_job_exclusive_witness :
    (runClaims 1 [] "d" ["nodeA", "nodeB", "nodeC"] ⟨[], []⟩).1.countP
      isClaimWin = 1 :=
  (claim_job_exclusive 1 [] "d" ["nodeA", "nodeB", "nodeC"] ⟨[], []⟩
    (by decide)).2.1 (by decide) (by decide)

theorem u32le_length (n : Nat) : (u32le n).length = 4 := rfl

theorem rowBytes_length (row : List (Nat × Nat)) :
    (rowBytes row).length = 8 * row.length := by
  induction row with
  | nil => rfl
  | cons v rest ih =>
    simp only [rowBytes, List.length_append, u32le_length, ih, List.length_cons]
    ring

theorem floData_length (flow : Flow) (w : Nat) (hrect : ∀ r ∈ flow, r.length = w) :
    (floData flow).length = 8 * (flow.length * w) := by
  induction flow with
  | nil => simp [floData]
  | cons row rest ih =>
    have hrow : row.length = w := hrect row (List.mem_cons_self row rest)
    have ih2 := ih fun r hr => hrect r (List.mem_cons_of_mem row hr)
    simp only [floData, List.length_append, rowBytes_length, hrow, ih2,
      List.length_cons]
    ring

/-- Value of the magic constant written by `write_flow`: its bit pattern
decodes to the IEEE-754 single-precision number `202021.25`. -/
theorem flo_magic_value : f32toRat FLO_MAGIC_BITS = 202021.25 := by
  norm_num [f32toRat, FLO_MAGIC_BITS]

/-- Claim C6: for every flow field, `write_flow` leaves the destination
file containing exactly, in order, the four bytes of the IEEE-754
single-precision value `202021.25`, the width as an unsigned 32-bit
little-endian integer, the height likewise, and the
`width * height * 2` single-precision values row-major, `(dx, dy)`
interleaved per pixel (8 data bytes per pixel) — fully replacing any prior
content of the file and touching no other file. -/
theorem write_flow_layout (fname : Path) (flow : Flow) (fs : FS)
    (hrect : ∀ r ∈ flow, r.length = flowWidth flow)
    (hden : fname ∉ fs.denied) :
    ∃ fs1, write_flow fname flow fs = .ok fs1 ∧
      fs1.read fname = some (.bytes
        (u32le FLO_MAGIC_BITS ++ u32le (flowWidth flow) ++ u32le flow.length ++
          floData flow)) ∧
      (u32le FLO_MAGIC_BITS).length = 4 ∧
      (floData flow).length = 8 * (flow.length * flowWidth flow) ∧
      f32toRat FLO_MAGIC_BITS = 202021.25 ∧
      ∀ p, p ≠ fname → fs1.read p = fs.read p := by
  refine ⟨fs.write fname (.bytes (floBytes flow)), ?_, ?_, rfl,
    floData_length flow (flowWidth flow) hrect, flo_magic_value, ?_⟩
  · simp [write_flow, hden]
  · rw [read_write_self]; rfl
  · intro p hp
    exact read_write_ne fs fname p _ hp

/-- Witness for C6: a 2-row, 1-column field written over a file that
already holds other bytes ends as exactly the 12 header bytes plus 16 data
bytes. -/
theorem write_flow_layout_witness :
    ∃ fs1, write_flow ⟨"d", FName.forwardFlo 1 2⟩ [[(5, 6)], [(7, 8)]]
        ⟨[(⟨"d", FName.forwardFlo 1 2⟩, .bytes [9, 9, 9])], []⟩ = .ok fs1 ∧
      fs1.read ⟨"d", FName.forwardFlo 1 2⟩ = some (.bytes
        (u32le FLO_MAGIC_BITS ++ u32le (flowWidth [[(5, 6)], [(7, 8)]]) ++
          u32le [[(5, 6)], [(7, 8)]].length ++ floData [[(5, 6)], [(7, 8)]])) ∧
      (u32le FLO_MAGIC_BITS).length = 4 ∧
      (floData [[(5, 6)], [(7, 8)]]).length =
        8 * ([[(5, 6)], [(7, 8)]].length * flowWidth [[(5, 6)], [(7, 8)]]) ∧
      f32toRat FLO_MAGIC_BITS = 202021.25 ∧
      ∀ p, p ≠ ⟨"d", FName.forwardFlo 1 2⟩ →
        fs1.read p = FS.read ⟨[(⟨"d", FName.forwardFlo 1 2⟩, .bytes [9, 9, 9])], []⟩ p :=
  write_flow_layout ⟨"d", FName.forwardFlo 1 2⟩ [[(5, 6)], [(7, 8)]]
    ⟨[(⟨"d", FName.forwardFlo 1 2⟩, .bytes [9, 9, 9])], []⟩ (by decide) (by decide)

/-- Reduction of `farneback` when both frames decode and both writes are
permitted: it writes the forward then the backward flow file and
succeeds. -/
theorem farneback_eq_of_ok (o : Oracle) (sN eN fN bN : Path) (fs : FS)
    (s0 e0 : Img) (hs0 : imread fs sN = some s0) (he0 : imread fs eN = some e0)
    (hfd : fN ∉ fs.denied) (hbd : bN ∉ fs.denied) :
    farneback o sN eN fN bN fs =
      ⟨none, (fs.write fN
          (.bytes (floBytes (o.calcFlow (o.cvtGray s0) (o.cvtGray e0))))).write
        bN (.bytes (floBytes (o.calcFlow (o.cvtGray e0) (o.cvtGray s0))))⟩ := by
  simp only [farneback, hs0, he0]
  simp [write_flow, FS.write, hfd, hbd]

/-- Reduction of `deepflow` when both external chains produce their output
file: both files are written, and the step cannot fail regardless of the
exit statuses. -/
theorem deepflow_eq_of_some (o : Oracle) (sN eN fN bN : Path) (fs : FS)
    (cf cb : FileContent) (hf : o.deepflowForward = some cf)
    (hb : o.deepflowBackward = some cb) :
    deepflow o sN eN fN bN fs = ⟨none, (fs.write fN cf).write bN cb⟩ := by
  simp [deepflow, hf, hb]

/-- Reads on the final directory state of a successful job: after writing
forward, backward and reliability files and then removing the forward one,
the forward file is gone, backward and reliability files hold their
contents, and every other preexisting file is still present. -/
theorem outputs_after_cleanup (fs : FS) (dst : String) (idx : Nat)
    (cf cb rc : FileContent) :
    (((((fs.write ⟨dst, FName.forwardFlo idx (idx + 1)⟩ cf).write
        ⟨dst, FName.backwardFlo (idx + 1) idx⟩ cb).write
        ⟨dst, FName.reliablePgm (idx + 1) idx⟩ rc).removeFile
        ⟨dst, FName.forwardFlo idx (idx + 1)⟩).read
        ⟨dst, FName.forwardFlo idx (idx + 1)⟩ = none) ∧
    (((((fs.write ⟨dst, FName.forwardFlo idx (idx + 1)⟩ cf).write
        ⟨dst, FName.backwardFlo (idx + 1) idx⟩ cb).write
        ⟨dst, FName.reliablePgm (idx + 1) idx⟩ rc).removeFile
        ⟨dst, FName.forwardFlo idx (idx + 1)⟩).read
        ⟨dst, FName.backwardFlo (idx + 1) idx⟩ = some cb) ∧
    (((((fs.write ⟨dst, FName.forwardFlo idx (idx + 1)⟩ cf).write
        ⟨dst, FName.backwardFlo (idx + 1) idx⟩ cb).write
        ⟨dst, FName.reliablePgm (idx + 1) idx⟩ rc).removeFile
        ⟨dst, FName.forwardFlo idx (idx + 1)⟩).read
        ⟨dst, FName.reliablePgm (idx + 1) idx⟩ = some rc) ∧
    ∀ p, p ≠ ⟨dst, FName.forwardFlo idx (idx + 1)⟩ → (fs.read p).isSome →
      (((((fs.write ⟨dst, FName.forwardFlo idx (idx + 1)⟩ cf).write
        ⟨dst, FName.backwardFlo (idx + 1) idx⟩ cb).write
        ⟨dst, FName.reliablePgm (idx + 1) idx⟩ rc).removeFile
        ⟨dst, FName.forwardFlo idx (idx + 1)⟩).read p).isSome := by
  have hbf : (⟨dst, FName.backwardFlo (idx + 1) idx⟩ : Path) ≠
      ⟨dst, FName.forwardFlo idx (idx + 1)⟩ := by simp
  have hrf : (⟨dst, FName.reliablePgm (idx + 1) idx⟩ : Path) ≠
      ⟨dst, FName.forwardFlo idx (idx + 1)⟩ := by simp
  have hbr : (⟨dst, FName.backwardFlo (idx + 1) idx⟩ : Path) ≠
      ⟨dst, FName.reliablePgm (idx + 1) idx⟩ := by simp
  refine ⟨read_removeFile_self _ _, ?_, ?_, ?_⟩
  · rw [read_removeFile_ne _ _ _ hbf, read_write_ne _ _ _ _ hbr, read_write_self]
  · rw [read_removeFile_ne _ _ _ hrf, read_write_self]
  · intro p hp hpre
    rw [read_removeFile_ne _ _ _ hp]
    by_cases hr : p = ⟨dst, FName.reliablePgm (idx + 1) idx⟩
    · rw [hr, read_write_self]; rfl
    · rw [read_write_ne _ _ _ _ hr]
      by_cases hb : p = ⟨dst, FName.backwardFlo (idx + 1) idx⟩
      · rw [hb, read_write_self]; rfl
      · rw [read_write_ne _ _ _ _ hb, read_write_ne _ _ _ _ hp]
        exact hpre

/-- Claim C4: whenever a job pipeline runs to a successful completion —
the selected backend produced both flow files (for the Farneback backend:
both frames decode and both writes are permitted; for the DeepFlow
backend: both external chains produced their file) and the consistency
check produced the reliability map — the forward flow file
`forward_idx_{idx+1}.flo` no longer exists, the backward flow file
`backward_{idx+1}_idx.flo` and the reliability map
`reliable_{idx+1}_idx.pgm` both exist, and no other file of the directory
is removed. -/
theorem run_job_success_outputs (o : Oracle) (idx : Nat) (sN eN : Path)
    (dst : String) (fast : Bool) (fs : FS) (rc : FileContent)
    (hcc : o.consistencyOut = some rc)
    (hfast : fast = true → (imread fs sN).isSome ∧ (imread fs eN).isSome ∧
      (⟨dst, FName.forwardFlo idx (idx + 1)⟩ : Path) ∉ fs.denied ∧
      (⟨dst, FName.backwardFlo (idx + 1) idx⟩ : Path) ∉ fs.denied)
    (hslow : fast = false → o.deepflowForward.isSome ∧ o.deepflowBackward.isSome) :
    (run_job o idx sN eN dst fast fs).err = none ∧
    (run_job o idx sN eN dst fast fs).fs.read
      ⟨dst, FName.forwardFlo idx (idx + 1)⟩ = none ∧
    ((run_job o idx sN eN dst fast fs).fs.read
      ⟨dst, FName.backwardFlo (idx + 1) idx⟩).isSome ∧
    (run_job o idx sN eN dst fast fs).fs.read
      ⟨dst, FName.reliablePgm (idx + 1) idx⟩ = some rc ∧
    ∀ p, p ≠ ⟨dst, FName.forwardFlo idx (idx + 1)⟩ → (fs.read p).isSome →
      ((run_job o idx sN eN dst fast fs).fs.read p).isSome := by
  have hfr : (⟨dst, FName.forwardFlo idx (idx + 1)⟩ : Path) ≠
      ⟨dst, FName.reliablePgm (idx + 1) idx⟩ := by simp
  have hfb : (⟨dst, FName.forwardFlo idx (idx + 1)⟩ : Path) ≠
      ⟨dst, FName.backwardFlo (idx + 1) idx⟩ := by simp
  have key : ∀ cf cb : FileContent,
      (if fast then
        farneback o sN eN ⟨dst, FName.forwardFlo idx (idx + 1)⟩
          ⟨dst, FName.backwardFlo (idx + 1) idx⟩ fs
      else
        deepflow o sN eN ⟨dst, FName.forwardFlo idx (idx + 1)⟩
          ⟨dst, FName.backwardFlo (idx + 1) idx⟩ fs) =
        ⟨none, (fs.write ⟨dst, FName.forwardFlo idx (idx + 1)⟩ cf).write
          ⟨dst, FName.backwardFlo (idx + 1) idx⟩ cb⟩ →
      run_job o idx sN eN dst fast fs =
        ⟨none, ((((fs.write ⟨dst, FName.forwardFlo idx (idx + 1)⟩ cf).write
          ⟨dst, FName.backwardFlo (idx + 1) idx⟩ cb).write
          ⟨dst, FName.reliablePgm (idx + 1) idx⟩ rc).removeFile
          ⟨dst, FName.forwardFlo idx (idx + 1)⟩)⟩ := by
    intro cf cb hstep
    have hfsome : (((fs.write ⟨dst, FName.forwardFlo idx (idx + 1)⟩ cf).write
        ⟨dst, FName.backwardFlo (idx + 1) idx⟩ cb).write
        ⟨dst, FName.reliablePgm (idx + 1) idx⟩ rc).read
        ⟨dst, FName.forwardFlo idx (idx + 1)⟩ = some cf := by
      rw [read_write_ne _ _ _ _ hfr, read_write_ne _ _ _ _ hfb, read_write_self]
    simp only [run_job, hstep, hcc, hfsome, Option.isSome_some, if_true]
  cases fast with
  | false =>
    obtain ⟨hf, hb⟩ := hslow rfl
    obtain ⟨cf, hcf⟩ := Option.isSome_iff_exists.mp hf
    obtain ⟨cb, hcb⟩ := Option.isSome_iff_exists.mp hb
    have hrun := key cf cb (deepflow_eq_of_some o sN eN _ _ fs cf cb hcf hcb)
    rw [hrun]
    obtain ⟨o1, o2, o3, o4⟩ := outputs_after_cleanup fs dst idx cf cb rc
    exact ⟨rfl, o1, by rw [o2]; rfl, o3, o4⟩
  | true =>
    obtain ⟨hs, he, hfd, hbd⟩ := hfast rfl
    obtain ⟨s0, hs0⟩ := Option.isSome_iff_exists.mp hs
    obtain ⟨e0, he0⟩ := Option.isSome_iff_exists.mp he
    have hrun := key
      (.bytes (floBytes (o.calcFlow (o.cvtGray s0) (o.cvtGray e0))))
      (.bytes (floBytes (o.calcFlow (o.cvtGray e0) (o.cvtGray s0))))
      (farneback_eq_of_ok o sN eN _ _ fs s0 e0 hs0 he0 hfd hbd)
    rw [hrun]
    obtain ⟨o1, o2, o3, o4⟩ := outputs_after_cleanup fs dst idx _ _ rc
    exact ⟨rfl, o1, by rw [o2]; rfl, o3, o4⟩

/-- Witness for C4: a directory with two decodable frames and an unrelated
file, the Farneback backend, and a consistency check that writes its map —
after the job, the forward file is gone and both outputs exist. -/
theorem run_job_success_outputs_witness :
    (run_job ⟨id, fun _ _ => [[(1, 2)]], none, none, 0, 0, some (.bytes [7]), 0⟩
      1 ⟨"d", FName.frame 1⟩ ⟨"d", FName.frame 2⟩ "d" true
      ⟨[(⟨"d", FName.frame 1⟩, .image ⟨1, 1, [0]⟩),
        (⟨"d", FName.frame 2⟩, .image ⟨1, 1, [1]⟩)], []⟩).err = none ∧
    (run_job ⟨id, fun _ _ => [[(1, 2)]], none, none, 0, 0, some (.bytes [7]), 0⟩
      1 ⟨"d", FName.frame 1⟩ ⟨"d", FName.frame 2⟩ "d" true
      ⟨[(⟨"d", FName.frame 1⟩, .image ⟨1, 1, [0]⟩),
        (⟨"d", FName.frame 2⟩, .image ⟨1, 1, [1]⟩)], []⟩).fs.read
      ⟨"d", FName.forwardFlo 1 2⟩ = none ∧
    ((run_job ⟨id, fun _ _ => [[(1, 2)]], none, none, 0, 0, some (.bytes [7]), 0⟩
      1 ⟨"d", FName.frame 1⟩ ⟨"d", FName.frame 2⟩ "d" true
      ⟨[(⟨"d", FName.frame 1⟩, .image ⟨1, 1, [0]⟩),
        (⟨"d", FName.frame 2⟩, .image ⟨1, 1, [1]⟩)], []⟩).fs.read
      ⟨"d", FName.backwardFlo 2 1⟩).isSome ∧
    (run_job ⟨id, fun _ _ => [[(1, 2)]], none, none, 0, 0, some (.bytes [7]), 0⟩
      1 ⟨"d", FName.frame 1⟩ ⟨"d", FName.frame 2⟩ "d" true
      ⟨[(⟨"d", FName.frame 1⟩, .image ⟨1, 1, [0]⟩),
        (⟨"d", FName.frame 2⟩, .image ⟨1, 1, [1]⟩)], []⟩).fs.read
      ⟨"d", FName.reliablePgm 2 1⟩ = some (.bytes [7]) := by
  obtain ⟨h1, h2, h3, h4, h5⟩ := run_job_success_outputs
    ⟨id, fun _ _ => [[(1, 2)]], none, none, 0, 0, some (.bytes [7]), 0⟩
    1 ⟨"d", FName.frame 1⟩ ⟨"d", FName.frame 2⟩ "d" true
    ⟨[(⟨"d", FName.frame 1⟩, .image ⟨1, 1, [0]⟩),
      (⟨"d", FName.frame 2⟩, .image ⟨1, 1, [1]⟩)], []⟩ (.bytes [7]) rfl
    (fun _ => by refine ⟨?_, ?_, ?_, ?_⟩ <;> decide)
    (fun h => by simp at h)
  exact ⟨h1, h2, h3, h4⟩

/-- Counterexample to claim C5 as stated: a concrete run in which the
external consistency-check process fails (exit status 1, no reliability
map written) while both frames decode.  `run_job` nevertheless finishes
with no error and still performs the remaining cleanup step — the forward
flow file is removed — because the source never inspects the exit status
of `subprocess.run`.  Thus a failing step does not fail the whole job. -/
theorem run_job_ignores_exit_counterexample :
    (⟨id, fun _ _ => [[(1, 2)]], none, none, 0, 0, none, 1⟩ : Oracle).consistencyExit ≠ 0 ∧
    (⟨id, fun _ _ => [[(1, 2)]], none, none, 0, 0, none, 1⟩ : Oracle).consistencyOut = none ∧
    (run_job ⟨id, fun _ _ => [[(1, 2)]], none, none, 0, 0, none, 1⟩
      1 ⟨"d", FName.frame 1⟩ ⟨"d", FName.frame 2⟩ "d" true
      ⟨[(⟨"d", FName.frame 1⟩, .image ⟨1, 1, [0]⟩),
        (⟨"d", FName.frame 2⟩, .image ⟨1, 1, [1]⟩)], []⟩).err = none ∧
    (run_job ⟨id, fun _ _ => [[(1, 2)]], none, none, 0, 0, none, 1⟩
      1 ⟨"d", FName.frame 1⟩ ⟨"d", FName.frame 2⟩ "d" true
      ⟨[(⟨"d", FName.frame 1⟩, .image ⟨1, 1, [0]⟩),
        (⟨"d", FName.frame 2⟩, .image ⟨1, 1, [1]⟩)], []⟩).fs.read
      ⟨"d", FName.forwardFlo 1 2⟩ = none ∧
    (run_job ⟨id, fun _ _ => [[(1, 2)]], none, none, 0, 0, none, 1⟩
      1 ⟨"d", FName.frame 1⟩ ⟨"d", FName.frame 2⟩ "d" true
      ⟨[(⟨"d", FName.frame 1⟩, .image ⟨1, 1, [0]⟩),
        (⟨"d", FName.frame 2⟩, .image ⟨1, 1, [1]⟩)], []⟩).fs.read
      ⟨"d", FName.reliablePgm 2 1⟩ = none := by
  refine ⟨by decide, rfl, ?_, ?_, ?_⟩ <;> decide

/-- Claim C5 as amended: a missing input frame or a codec write failure
fails the whole job, leaving the directory exactly as the failing step
found it; a non-zero exit status of an external process does not by
itself fail the job — a silent flow-backend failure surfaces only
indirectly as `FileNotFoundError` when the forward flow file is absent at
the removal step; and a job finishing (in failure or success) is an event
confined to that job: it is always a legal pool step that flips only that
thread's liveness flag, leaves every other thread untouched and the
coordinator phase unchanged. -/
theorem run_job_failure_semantics (o : Oracle) (idx : Nat) (sN eN : Path)
    (dst : String) (fs : FS) :
    ((imread fs sN = none ∨ imread fs eN = none) →
      run_job o idx sN eN dst true fs = ⟨some .missingFrame, fs⟩) ∧
    ((⟨dst, FName.forwardFlo idx (idx + 1)⟩ : Path) ∈ fs.denied →
      (∀ im, imread fs sN = some im → ∀ im2, imread fs eN = some im2 →
        run_job o idx sN eN dst true fs = ⟨some .codecIOFailure, fs⟩)) ∧
    (o.deepflowForward = none → o.consistencyOut = none →
      fs.read ⟨dst, FName.forwardFlo idx (idx + 1)⟩ = none →
      (run_job o idx sN eN dst false fs).err = some .fileNotFound) ∧
    (∀ env : PoolEnv, ∀ s : PoolState, ∀ k : Nat, ∀ fs1 : FS,
      s.running.get? k = some true →
      PoolStep env s { s with running := s.running.set k false, fs := fs1 } ∧
      (∀ j, j ≠ k → (s.running.set k false).get? j = s.running.get? j) ∧
      ({ s with running := s.running.set k false, fs := fs1 } : PoolState).phase
        = s.phase) := by
  have hfb : (⟨dst, FName.forwardFlo idx (idx + 1)⟩ : Path) ≠
      ⟨dst, FName.backwardFlo (idx + 1) idx⟩ := by simp
  refine ⟨?_, ?_, ?_, ?_⟩
  · rintro (hmiss | hmiss)
    · simp [run_job, farneback, hmiss]
    · cases hs : imread fs sN with
      | none => simp [run_job, farneback, hs]
      | some s0 => simp [run_job, farneback, hs, hmiss]
  · intro hden im him im2 him2
    simp [run_job, farneback, him, him2, write_flow, hden]
  · intro hdf hcc hfwd
    cases hb : o.deepflowBackward with
    | none => simp [run_job, deepflow, hdf, hb, hcc, hfwd]
    | some cb =>
      have : ((fs.write ⟨dst, FName.backwardFlo (idx + 1) idx⟩ cb).read
          ⟨dst, FName.forwardFlo idx (idx + 1)⟩) = none := by
        rw [read_write_ne _ _ _ _ hfb]; exact hfwd
      simp [run_job, deepflow, hdf, hb, hcc, this]
  · intro env s k fs1 hk
    refine ⟨PoolStep.threadDone s k fs1 hk, ?_, rfl⟩
    intro j hj
    exact List.get?_set_ne false s.running (Ne.symm hj)

/-- Witness for the amended C5: a job whose start frame is absent from a
concrete directory fails with the missing-frame error and changes no
file. -/
theorem run_job_failure_semantics_witness :
    run_job ⟨id, fun _ _ => [[(1, 2)]], none, none, 0, 0, some (.bytes [7]), 0⟩
      2 ⟨"d", FName.frame 2⟩ ⟨"d", FName.frame 3⟩ "d" true ⟨[], []⟩ =
      ⟨some .missingFrame, ⟨[], []⟩⟩ :=
  (run_job_failure_semantics
    ⟨id, fun _ _ => [[(1, 2)]], none, none, 0, 0, some (.bytes [7]), 0⟩
    2 ⟨"d", FName.frame 2⟩ ⟨"d", FName.frame 3⟩ "d" ⟨[], []⟩).1 (Or.inl rfl)

/-- Claim C8: for a job index whose end frame (frame `idx + 1`) is absent,
the claim still succeeds and the placeholder file exists afterwards, but
the job run with the Farneback backend fails with the missing-frame error
before producing anything: afterwards neither the backward flow file nor
the reliability map of that job exists (assuming, as for a fresh job,
that neither existed beforehand). -/
theorem claim_then_missing_end_frame (o : Oracle) (idx : Nat)
    (frames : List String) (dst node : String) (fs : FS)
    (h1 : fs.read ⟨dst, FName.plc idx⟩ = none)
    (h2 : (⟨dst, FName.plc idx⟩ : Path) ∉ fs.denied)
    (h3 : fs.read ⟨dst, FName.frame (idx + 1)⟩ = none)
    (h4 : fs.read ⟨dst, FName.backwardFlo (idx + 1) idx⟩ = none)
    (h5 : fs.read ⟨dst, FName.reliablePgm (idx + 1) idx⟩ = none) :
    ∃ fs1, claim_job idx frames dst node fs =
        .ok (some (⟨dst, FName.frame idx⟩, ⟨dst, FName.frame (idx + 1)⟩), fs1) ∧
      (fs1.read ⟨dst, FName.plc idx⟩).isSome ∧
      (run_job o idx ⟨dst, FName.frame idx⟩ ⟨dst, FName.frame (idx + 1)⟩
        dst true fs1).err = some .missingFrame ∧
      (run_job o idx ⟨dst, FName.frame idx⟩ ⟨dst, FName.frame (idx + 1)⟩
        dst true fs1).fs.read ⟨dst, FName.backwardFlo (idx + 1) idx⟩ = none ∧
      (run_job o idx ⟨dst, FName.frame idx⟩ ⟨dst, FName.frame (idx + 1)⟩
        dst true fs1).fs.read ⟨dst, FName.reliablePgm (idx + 1) idx⟩ = none := by
  have hpb : (⟨dst, FName.backwardFlo (idx + 1) idx⟩ : Path) ≠
      ⟨dst, FName.plc idx⟩ := by simp
  have hpr : (⟨dst, FName.reliablePgm (idx + 1) idx⟩ : Path) ≠
      ⟨dst, FName.plc idx⟩ := by simp
  have hpe : (⟨dst, FName.frame (idx + 1)⟩ : Path) ≠ ⟨dst, FName.plc idx⟩ := by
    simp
  have hend : imread (fs.write ⟨dst, FName.plc idx⟩
      (.text ("PLACEHOLDER CREATED BY " ++ node)))
      ⟨dst, FName.frame (idx + 1)⟩ = none := by
    rw [imread, read_write_ne _ _ _ _ hpe, h3]
  have hrun : run_job o idx ⟨dst, FName.frame idx⟩ ⟨dst, FName.frame (idx + 1)⟩
      dst true (fs.write ⟨dst, FName.plc idx⟩
        (.text ("PLACEHOLDER CREATED BY " ++ node))) =
      ⟨some .missingFrame, fs.write ⟨dst, FName.plc idx⟩
        (.text ("PLACEHOLDER CREATED BY " ++ node))⟩ := by
    cases hs : imread (fs.write ⟨dst, FName.plc idx⟩
        (.text ("PLACEHOLDER CREATED BY " ++ node))) ⟨dst, FName.frame idx⟩ with
    | none => simp [run_job, farneback, hs]
    | some s0 => simp [run_job, farneback, hs, hend]
  refine ⟨fs.write ⟨dst, FName.plc idx⟩
    (.text ("PLACEHOLDER CREATED BY " ++ node)),
    claim_job_of_absent idx frames dst node fs h1 h2, ?_, ?_, ?_, ?_⟩
  · rw [read_write_self]; rfl
  · rw [hrun]
  · rw [hrun]
    exact (read_write_ne _ _ _ _ hpb).trans h4
  · rw [hrun]
    exact (read_write_ne _ _ _ _ hpr).trans h5

/-- Witness for C8 at a concrete directory holding only the start frame of
job 4: the claim succeeds and the failed job leaves no outputs. -/
theorem claim_then_missing_end_frame_witness :
    ∃ fs1, claim_job 4 ["f"] "d" "nodeA"
        ⟨[(⟨"d", FName.frame 4⟩, .image ⟨1, 1, [0]⟩)], []⟩ =
        .ok (some (⟨"d", FName.frame 4⟩, ⟨"d", FName.frame 5⟩), fs1) ∧
      (fs1.read ⟨"d", FName.plc 4⟩).isSome ∧
      (run_job ⟨id, fun _ _ => [[(1, 2)]], none, none, 0, 0, some (.bytes [7]), 0⟩
        4 ⟨"d", FName.frame 4⟩ ⟨"d", FName.frame 5⟩ "d" true fs1).err =
        some .missingFrame ∧
      (run_job ⟨id, fun _ _ => [[(1, 2)]], none, none, 0, 0, some (.bytes [7]), 0⟩
        4 ⟨"d", FName.frame 4⟩ ⟨"d", FName.frame 5⟩ "d" true fs1).fs.read
        ⟨"d", FName.backwardFlo 5 4⟩ = none ∧
      (run_job ⟨id, fun _ _ => [[(1, 2)]], none, none, 0, 0, some (.bytes [7]), 0⟩
        4 ⟨"d", FName.frame 4⟩ ⟨"d", FName.frame 5⟩ "d" true fs1).fs.read
        ⟨"d", FName.reliablePgm 5 4⟩ = none :=
  claim_then_missing_end_frame
    ⟨id, fun _ _ => [[(1, 2)]], none, none, 0, 0, some (.bytes [7]), 0⟩
    4 ["f"] "d" "nodeA" ⟨[(⟨"d", FName.frame 4⟩, .image ⟨1, 1, [0]⟩)], []⟩
    (by decide) (by decide) (by decide) (by decide) (by decide)

theorem countAlive_le_length (l : List Bool) : countAlive l ≤ l.length :=
  List.count_le_length _ _

/-- Preservation of the pool bound by one step: the `running` list never
grows beyond `maxJobs` entries, because a claim (the only step that
appends) is enabled only strictly below the bound. -/
theorem poolStep_length_le (env : PoolEnv) (s t : PoolState)
    (h : PoolStep env s t) (hlen : s.running.length ≤ env.maxJobs) :
    t.running.length ≤ env.maxJobs := by
  cases h with
  | poll h1 h2 h3 => exact le_trans (List.length_filter_le _ _) hlen
  | claimWin names fs1 h1 h2 h3 h4 => simpa [List.length_append] using h3
  | claimLose fs1 h1 h2 h3 h4 => exact hlen
  | claimFail e h1 h2 h3 h4 => exact hlen
  | threadDone k fs1 hk => simpa [List.length_set] using hlen
  | startJoin h1 h2 => exact hlen
  | finishJoin h1 h2 => exact hlen

theorem poolReach_length_le (env : PoolEnv) (fs0 : FS) (s : PoolState)
    (h : PoolReach env (initState fs0 env.start) s) :
    s.running.length ≤ env.maxJobs := by
  induction h with
  | refl => exact Nat.zero_le _
  | tail hab hbc ih => exact poolStep_length_le env _ _ hbc ih

/-- Claim C3: in every reachable state of an `optflow` run, the number of
live pipeline threads is at most the configured bound `MAX_OPTFLOW_JOBS`
(`env.maxJobs`), and any step that attempts a new claim can only be taken
from a state whose live-thread count is strictly below the bound — the
coordinator blocks (only `poll` and thread completions are enabled) while
it is at the cap. -/
theorem optflow_concurrency_bound (env : PoolEnv) (fs0 : FS) (s : PoolState)
    (h : PoolReach env (initState fs0 env.start) s) :
    countAlive s.running ≤ env.maxJobs ∧
    ∀ t, PoolStep env s t → s.claims.length < t.claims.length →
      countAlive s.running < env.maxJobs := by
  have hlen := poolReach_length_le env fs0 s h
  refine ⟨le_trans (countAlive_le_length _) hlen, ?_⟩
  intro t hstep hc
  cases hstep with
  | poll h1 h2 h3 => exact absurd hc (lt_irrefl _)
  | claimWin names fs1 h1 h2 h3 h4 =>
    exact lt_of_le_of_lt (countAlive_le_length _) h3
  | claimLose fs1 h1 h2 h3 h4 =>
    exact lt_of_le_of_lt (countAlive_le_length _) h3
  | claimFail e h1 h2 h3 h4 =>
    exact lt_of_le_of_lt (countAlive_le_length _) h3
  | threadDone k fs1 hk => exact absurd hc (lt_irrefl _)
  | startJoin h1 h2 => exact absurd hc (lt_irrefl _)
  | finishJoin h1 h2 => exact absurd hc (lt_irrefl _)

/-- Witness for C3 at the initial state of a concrete run with bound 2:
the live count 0 respects the bound. -/
theorem optflow_concurrency_bound_witness :
    countAlive (initState ⟨[], []⟩ 0).running ≤ 2 :=
  (optflow_concurrency_bound ⟨2, ["a", "b", "c"], "d", "n", 0⟩ ⟨[], []⟩
    (initState ⟨[], []⟩ 0) Relation.ReflTransGen.refl).1

theorem range_map_shift (a k : Nat) :
    (List.range (k + 1)).map (fun j => a + j) =
      a :: (List.range k).map (fun j => a + 1 + j) := by
  have hfun : ((fun j => a + j) ∘ Nat.succ) = fun j => a + 1 + j :=
    funext fun j => by simp only [Function.comp_apply]; omega
  rw [List.range_succ_eq_map, List.map_cons, List.map_map, hfun, Nat.add_zero]

/-- Trace of the claim loop: the attempted indices of a completed loop
starting at `idx` with `count` iterations are exactly
`idx + 1, idx + 2, …, idx + count`, in order. -/
theorem optflowLoop_attempts (frames : List String) (dst node : String)
    (fast : Bool) :
    ∀ count idx fs out,
      optflowLoop frames dst node fast idx count fs = .ok out →
      out.2.1 = (List.range count).map (fun j => idx + 1 + j) := by
  intro count
  induction count with
  | zero =>
    intro idx fs out h
    simp only [optflowLoop, Except.ok.injEq] at h
    rw [← h]
    simp
  | succ k ih =>
    intro idx fs out h
    rw [range_map_shift (idx + 1) k]
    simp only [optflowLoop] at h
    cases hclaim : claim_job (idx + 1) frames dst node fs with
    | error e =>
      simp only [hclaim] at h
      exact absurd h (by simp)
    | ok pr =>
      obtain ⟨r, fs1⟩ := pr
      simp only [hclaim] at h
      cases r with
      | none =>
        cases hrec : optflowLoop frames dst node fast (idx + 1) k fs1 with
        | error e =>
          simp only [hrec] at h
          exact absurd h (by simp)
        | ok out2 =>
          simp only [hrec, Except.ok.injEq] at h
          rw [← h]
          simpa using ih (idx + 1) fs1 out2 hrec
      | some names =>
        obtain ⟨sP, eP⟩ := names
        cases hrec : optflowLoop frames dst node fast (idx + 1) k fs1 with
        | error e =>
          simp only [hrec] at h
          exact absurd h (by simp)
        | ok out2 =>
          simp only [hrec, Except.ok.injEq] at h
          rw [← h]
          simpa using ih (idx + 1) fs1 out2 hrec

/-- Claim C7: a completed `optflow(start, frames, dst)` run attempts
claims exactly for the indices `start + 1, …, start + n - 1` (`n` the
number of frames), in strictly increasing order with each index attempted
at most once; and the run can only enter its returned phase through the
final join, from a state in which every spawned pipeline thread has
finished. -/
theorem optflow_claim_order (start : Nat) (frames : List String)
    (dst : String) (fast : Bool) (node : String) (fs fs2 : FS)
    (attempts : List Nat) (jobs : List Job)
    (h : optflow start frames dst fast node fs = .ok (fs2, attempts, jobs)) :
    attempts = (List.range (frames.length - 1)).map (fun j => start + 1 + j) ∧
    attempts.Chain' (· < ·) ∧
    attempts.Nodup ∧
    (∀ env : PoolEnv, ∀ t u : PoolState, PoolStep env t u →
      t.phase ≠ Phase.finished → u.phase = Phase.finished →
      countAlive t.running = 0) := by
  have hcount : start + frames.length - 1 - start = frames.length - 1 := by omega
  rw [optflow, hcount] at h
  have hatt : attempts = (List.range (frames.length - 1)).map
      (fun j => start + 1 + j) :=
    optflowLoop_attempts frames dst node fast
      (frames.length - 1) start fs (fs2, attempts, jobs) h
  have hpair : attempts.Pairwise (· < ·) := by
    rw [hatt]
    exact (List.pairwise_lt_range _).map _ (fun a b hab => by omega)
  refine ⟨hatt, List.chain'_iff_pairwise.mpr hpair,
    hpair.imp (fun hab => Nat.ne_of_lt hab), ?_⟩
  intro env t u hstep hne hu
  cases hstep with
  | poll h1 h2 h3 => exact absurd hu hne
  | claimWin names fs1 h1 h2 h3 h4 => exact absurd hu (by simp)
  | claimLose fs1 h1 h2 h3 h4 => exact absurd hu (by simp)
  | claimFail e h1 h2 h3 h4 => exact absurd hu (by simp)
  | threadDone k fs1 hk => exact absurd hu hne
  | startJoin h1 h2 => exact absurd hu (by simp)
  | finishJoin h1 h2 => exact h2

/-- Witness for C7: a concrete three-frame run from an empty directory
claims exactly indices 1 and 2, in order. -/
theorem optflow_claim_order_witness :
    ([1, 2] : List Nat) =
      (List.range ((["a", "b", "c"] : List String).length - 1)).map
        (fun j => 0 + 1 + j) ∧
    ([1, 2] : List Nat).Chain' (· < ·) ∧
    ([1, 2] : List Nat).Nodup ∧
    (∀ env : PoolEnv, ∀ t u : PoolState, PoolStep env t u →
      t.phase ≠ Phase.finished → u.phase = Phase.finished →
      countAlive t.running = 0) :=
  optflow_claim_order 0 ["a", "b", "c"] "d" false "n" ⟨[], []⟩
    ⟨[(⟨"d", FName.plc 2⟩, .text ("PLACEHOLDER CREATED BY " ++ "n")),
      (⟨"d", FName.plc 1⟩, .text ("PLACEHOLDER CREATED BY " ++ "n"))], []⟩
    [1, 2]
    [⟨1, ⟨"d", FName.frame 1⟩, ⟨"d", FName.frame 2⟩, "d", false⟩,
     ⟨2, ⟨"d", FName.frame 2⟩, ⟨"d", FName.frame 3⟩, "d", false⟩]
    rfl

/-- Claim C10: with fewer than two frames the loop range of `optflow` is
empty — no claim is attempted, no placeholder is created, no pipeline
thread is spawned, and the call returns normally with the directory
untouched. -/
theorem optflow_short_input (start : Nat) (frames : List String)
    (dst : String) (fast : Bool) (node : String) (fs : FS)
    (h : frames.length < 2) :
    optflow start frames dst fast node fs = .ok (fs, [], []) := by
  have hc : start + frames.length - 1 - start = 0 := by omega
  rw [optflow, hc]
  rfl

/-- Witness for C10: a single-frame run from a concrete nonempty directory
returns at once with no claims, no jobs and the directory unchanged. -/
theorem optflow_short_input_witness :
    optflow 5 ["only"] "d" true "n"
      ⟨[(⟨"d", FName.frame 5⟩, .image ⟨1, 1, [0]⟩)], []⟩ =
      .ok (⟨[(⟨"d", FName.frame 5⟩, .image ⟨1, 1, [0]⟩)], []⟩, [], []) :=
  optflow_short_input 5 ["only"] "d" true "n"
    ⟨[(⟨"d", FName.frame 5⟩, .image ⟨1, 1, [0]⟩)], []⟩ (by decide)

end Optflow
